import Mathlib

/-
Shallow embedding of the ACO simulation engine of
src/src/lib/aco/models.ts (an ant-colony-optimization visualizer).

Modelling conventions:
- JS numbers are modelled as rationals (ℚ).  `bestTourLength`, which the
  source initializes to `Infinity`, is modelled as `WithTop ℚ` (⊤ = Infinity).
- The pheromone/distance exponents `alpha` and `beta` (used via `Math.pow`)
  are modelled as naturals, so that `Math.pow x a` becomes `x ^ a` on ℚ.
- `Math.random()` is modelled as an explicit stream `rand : ℕ → ℚ` together
  with a threaded counter `k : ℕ`: the i-th call of `Math.random()` returns
  `rand i`.  In the source the draws come from the hidden JS global.
- `Math.sqrt` is modelled as an abstract injected function `sqrtFn : ℚ → ℚ`
  (ℚ is not closed under square roots); the Euclidean distance of the source
  is `sqrtFn ((x1-x2)^2 + (y1-y2)^2)`.
- JS array indexing out of range yields `undefined` (and `.id` on it would
  throw); the only such accesses (`visitedNodes[0]` of an ant with an empty
  tour, `nodes[randomIndex]` for a draw outside [0,1)) are unreachable for
  the draws the source makes, and are modelled by the default string "".
-/

namespace ACO

abbrev NodeId := String

structure Node where
  id : NodeId
  x : ℚ
  y : ℚ
  label : Option String
  deriving Repr, DecidableEq

structure Edge where
  source : NodeId
  target : NodeId
  distance : ℚ
  pheromone : ℚ
  deriving Repr, DecidableEq

structure Graph where
  nodes : List Node
  edges : List Edge
  deriving Repr, DecidableEq

structure Ant where
  id : String
  currentNode : NodeId
  visitedNodes : List NodeId
  tourLength : ℚ
  deriving Repr, DecidableEq

structure ACOParameters where
  antCount : ℕ
  alpha : ℕ
  beta : ℕ
  rho : ℚ
  q : ℚ
  iterations : ℕ
  deriving Repr, DecidableEq

structure ACOState where
  graph : Graph
  ants : List Ant
  bestTour : List NodeId
  bestTourLength : WithTop ℚ
  currentIteration : ℕ
  running : Bool
  speed : ℚ
  deriving DecidableEq

/- models.ts line 52: default ACO parameters. -/
def defaultParameters : ACOParameters :=
  { antCount := 10, alpha := 1, beta := 2, rho := 1/10, q := 100, iterations := 100 }

/- models.ts line 62: initial state (bestTourLength = Infinity = ⊤). -/
def initialState : ACOState :=
  { graph := { nodes := [], edges := [] }, ants := [], bestTour := [],
    bestTourLength := ⊤, currentIteration := 0, running := false, speed := 500 }

/- models.ts line 103 (`initializeAnts`): each ant consumes one draw
`Math.random()` to pick `Math.floor(random * nodes.length)` as start index.
The auxiliary carries the loop counter `i` and the RNG counter `k`. -/
def initializeAntsAux (graph : Graph) (rand : ℕ → ℚ) : ℕ → ℕ → ℕ → List Ant × ℕ
  | 0, _, k => ([], k)
  | n + 1, i, k =>
    let randomIndex := (Int.floor (rand k * (graph.nodes.length : ℚ))).toNat
    let startNodeId :=
      match graph.nodes.get? randomIndex with
      | some node => node.id
      | none => ""
    let rest := initializeAntsAux graph rand n (i + 1) (k + 1)
    ({ id := "ant-" ++ toString i,
       currentNode := startNodeId,
       visitedNodes := [startNodeId],
       tourLength := 0 } :: rest.1, rest.2)

def initializeAnts (graph : Graph) (count : ℕ) (rand : ℕ → ℚ) (k : ℕ) : List Ant × ℕ :=
  initializeAntsAux graph rand count 0 k

/- models.ts line 123 (`getAvailableEdges`). -/
def getAvailableEdges (graph : Graph) (ant : Ant) : List Edge :=
  graph.edges.filter (fun e =>
    decide (e.source = ant.currentNode ∧ ¬ e.target ∈ ant.visitedNodes))

/- models.ts line 141: desirability = pheromone^alpha * (1/distance)^beta. -/
def desirability (params : ACOParameters) (edge : Edge) : ℚ :=
  edge.pheromone ^ params.alpha * (1 / edge.distance) ^ params.beta

/- models.ts lines 152-157: the roulette-wheel walk; `accumulator >= random`
is `random ≤ acc + p`.  Returns `none` when the list is exhausted without
the accumulator reaching `random`. -/
def rouletteWalkAux : List (Edge × ℚ) → ℚ → ℚ → Option NodeId
  | [], _, _ => none
  | (e, p) :: rest, acc, random =>
    if random ≤ acc + p then some e.target
    else rouletteWalkAux rest (acc + p) random

/- models.ts line 131 (`selectNextNode`): `r` is the value of the single
`Math.random()` call (line 149); the drawn value is `random = r * total`.
Line 160: when the walk exhausts the list, fall back to the FIRST
available edge (`availableEdges[0].target`). -/
def selectNextNode (availableEdges : List Edge) (params : ACOParameters) (r : ℚ) :
    Option NodeId :=
  match availableEdges with
  | [] => none
  | e0 :: _ =>
    let probabilities := availableEdges.map (fun e => (e, desirability params e))
    let total := (availableEdges.map (desirability params)).sum
    let random := r * total
    match rouletteWalkAux probabilities 0 random with
    | some target => some target
    | none => some e0.target

/- models.ts line 168/179: linear search for the edge (source, target). -/
def findEdge (edges : List Edge) (s t : NodeId) : Option Edge :=
  edges.find? (fun e => decide (e.source = s ∧ e.target = t))

/- The consecutive pairs (tour[i], tour[i+1]), i = 0 .. tour.length - 2. -/
def consecPairs : List NodeId → List (NodeId × NodeId)
  | [] => []
  | [_] => []
  | a :: b :: rest => (a, b) :: consecPairs (b :: rest)

/- Distance of the matching edge, 0 when the lookup fails (silent skip). -/
def edgeDistOrZero (graph : Graph) (s t : NodeId) : ℚ :=
  match findEdge graph.edges s t with
  | some e => e.distance
  | none => 0

/- models.ts line 164 (`calculateTourLength`): consecutive distances, plus
the closing edge (tour[len-1] → tour[0]) when tour.length > 1. -/
def calculateTourLength (graph : Graph) (tour : List NodeId) : ℚ :=
  let base := ((consecPairs tour).map (fun pr => edgeDistOrZero graph pr.1 pr.2)).sum
  if 1 < tour.length then
    base + edgeDistOrZero graph (tour.getLastD "") (tour.headD "")
  else
    base

/- models.ts lines 193-242: the per-ant body of `moveAnts`.  Consumes one
draw exactly when `selectNextNode` is reached (candidate list non-empty). -/
def moveAnt (graph : Graph) (params : ACOParameters) (rand : ℕ → ℚ) (ant : Ant)
    (k : ℕ) : Ant × ℕ :=
  if ant.visitedNodes.length = graph.nodes.length then
    let startNode := ant.visitedNodes.headD ""
    match findEdge graph.edges ant.currentNode startNode with
    | some returnEdge =>
      ({ ant with
          currentNode := startNode,
          visitedNodes := ant.visitedNodes ++ [startNode],
          tourLength := ant.tourLength + returnEdge.distance }, k)
    | none => (ant, k)
  else
    let availableEdges := getAvailableEdges graph ant
    if availableEdges = [] then
      (ant, k)
    else
      match selectNextNode availableEdges params (rand k) with
      | none => (ant, k + 1)
      | some nextNode =>
        match availableEdges.find? (fun e => decide (e.target = nextNode)) with
        | none => (ant, k + 1)
        | some selectedEdge =>
          ({ ant with
              currentNode := nextNode,
              visitedNodes := ant.visitedNodes ++ [nextNode],
              tourLength := ant.tourLength + selectedEdge.distance }, k + 1)

/- models.ts line 192 (`moveAnts`): `state.ants.map`, sequential in the RNG. -/
def moveAntsAux (graph : Graph) (params : ACOParameters) (rand : ℕ → ℚ) :
    List Ant → ℕ → List Ant × ℕ
  | [], k => ([], k)
  | a :: rest, k =>
    let r := moveAnt graph params rand a k
    let rr := moveAntsAux graph params rand rest r.2
    (r.1 :: rr.1, rr.2)

def moveAnts (state : ACOState) (params : ACOParameters) (rand : ℕ → ℚ) (k : ℕ) :
    List Ant × ℕ :=
  moveAntsAux state.graph params rand state.ants k

/- models.ts lines 272-281: `findIndex` of the first edge matching
(source, target) and add `d` to its pheromone; no match leaves the list
unchanged. -/
def addPheromoneAt : List Edge → NodeId → NodeId → ℚ → List Edge
  | [], _, _, _ => []
  | e :: rest, s, t, d =>
    if e.source = s ∧ e.target = t then
      { e with pheromone := e.pheromone + d } :: rest
    else
      e :: addPheromoneAt rest s t d

/- models.ts lines 267-282: deposit on every consecutive pair of the ant's
visitedNodes (for a completed ant this includes the closing pair, since
its visitedNodes end with the repeated start node). -/
def depositAnt (es : List Edge) (ant : Ant) (deposit : ℚ) : List Edge :=
  (consecPairs ant.visitedNodes).foldl
    (fun acc pr => addPheromoneAt acc pr.1 pr.2 deposit) es

/- models.ts lines 257-283: an ant's contribution; incomplete tours
(visitedNodes.length <= nodes.length) are skipped. -/
def depositStep (nodeCount : ℕ) (q : ℚ) (es : List Edge) (ant : Ant) : List Edge :=
  if ant.visitedNodes.length ≤ nodeCount then es
  else depositAnt es ant (q / ant.tourLength)

/- models.ts line 246 (`updatePheromones`): evaporation then deposits. -/
def updatePheromones (state : ACOState) (params : ACOParameters) : List Edge :=
  state.ants.foldl (depositStep state.graph.nodes.length params.q)
    (state.graph.edges.map (fun e => { e with pheromone := e.pheromone * (1 - params.rho) }))

/- models.ts lines 295-300: the node with index i of the generated graph;
its x draw is `rand (2*i)` and its y draw `rand (2*i+1)`. -/
def genNode (rand : ℕ → ℚ) (width height : ℚ) (i : ℕ) : Node :=
  { id := "node-" ++ toString i,
    x := rand (2 * i) * (width - 50) + 25,
    y := rand (2 * i + 1) * (height - 50) + 25,
    label := some (toString (i + 1)) }

/- models.ts lines 311-313 (also 74): Euclidean distance via the injected
square-root primitive. -/
def euclidean (sqrtFn : ℚ → ℚ) (s t : Node) : ℚ :=
  sqrtFn ((s.x - t.x) ^ 2 + (s.y - t.y) ^ 2)

/- models.ts lines 305-323: the edge from node index i to node index j with
`distance = euclidean(i, j)` and initial pheromone 1.0. -/
def genEdge (sqrtFn : ℚ → ℚ) (rand : ℕ → ℚ) (width height : ℚ) (i j : ℕ) : Edge :=
  { source := (genNode rand width height i).id,
    target := (genNode rand width height j).id,
    distance := euclidean sqrtFn (genNode rand width height i) (genNode rand width height j),
    pheromone := 1 }

/- models.ts line 289 (`generateRandomGraph`): random nodes, then the double
loop over indices i, j skipping i = j. -/
def generateRandomGraph (sqrtFn : ℚ → ℚ) (rand : ℕ → ℚ) (nodeCount : ℕ)
    (width height : ℚ) : Graph :=
  let nodes := (List.range nodeCount).map (genNode rand width height)
  let edges := (List.range nodeCount).flatMap (fun i =>
    (List.range nodeCount).flatMap (fun j =>
      if i = j then []
      else [genEdge sqrtFn rand width height i j]))
  { nodes := nodes, edges := edges }

/- models.ts lines 358-363: the best-tour scan body (`ant.tourLength <
bestTourLength` with bestTourLength possibly Infinity). -/
def bestUpd (bt : List NodeId × WithTop ℚ) (ant : Ant) : List NodeId × WithTop ℚ :=
  if ((ant.tourLength : ℚ) : WithTop ℚ) < bt.2 then
    (ant.visitedNodes, ((ant.tourLength : ℚ) : WithTop ℚ))
  else bt

/- models.ts lines 334-338: respawn when the population is empty or its lead
ant already completed its tour in a previous tick. -/
def respawnIfStale (state : ACOState) (params : ACOParameters) (rand : ℕ → ℚ)
    (k : ℕ) : List Ant × ℕ :=
  match state.ants with
  | [] => initializeAnts state.graph params.antCount rand k
  | a0 :: _ =>
    if state.graph.nodes.length < a0.visitedNodes.length then
      initializeAnts state.graph params.antCount rand k
    else
      (state.ants, k)

/- models.ts lines 333-341: respawn-if-stale followed by the move step. -/
def antsAfterMove (state : ACOState) (params : ACOParameters) (rand : ℕ → ℚ)
    (k : ℕ) : List Ant × ℕ :=
  let init := respawnIfStale state params rand k
  moveAntsAux state.graph params rand init.1 init.2

/- models.ts lines 353-370: the completed-generation branch of the tick
(pheromone update, best-tour scan, iteration increment, respawn). -/
def completedTick (state : ACOState) (params : ACOParameters) (rand : ℕ → ℚ)
    (mv : List Ant × ℕ) : ACOState × ℕ :=
  let edges := updatePheromones { state with ants := mv.1 } params
  let best := mv.1.foldl bestUpd (state.bestTour, state.bestTourLength)
  let re := initializeAnts { nodes := state.graph.nodes, edges := edges }
    params.antCount rand mv.2
  ({ state with
      graph := { nodes := state.graph.nodes, edges := edges },
      ants := re.1,
      bestTour := best.1,
      bestTourLength := best.2,
      currentIteration := state.currentIteration + 1 }, re.2)

/- models.ts line 329 (`performIteration`): one tick. -/
def performIteration (state : ACOState) (params : ACOParameters) (rand : ℕ → ℚ)
    (k : ℕ) : ACOState × ℕ :=
  if (antsAfterMove state params rand k).1.all
      (fun ant => decide (state.graph.nodes.length < ant.visitedNodes.length)) then
    completedTick state params rand (antsAfterMove state params rand k)
  else
    ({ state with ants := (antsAfterMove state params rand k).1 },
      (antsAfterMove state params rand k).2)

/- ------------------------------------------------------------------ -/
/- Spec-side model and helper observations used by the theorems below. -/
/- ------------------------------------------------------------------ -/

/- Modelled from the spec: `tourLength` sums consecutive edge distances
along the tour, including the closing edge back to the first node when
tour.length > 1; missing edges contribute 0.  Used as the comparison
point for `calculateTourLength`. -/
def tourLengthSpecModel (graph : Graph) (tour : List NodeId) : ℚ :=
  match tour with
  | [] => 0
  | [_] => 0
  | t0 :: t1 :: rest =>
    (((t0 :: t1 :: rest).zip ((t1 :: rest) ++ [t0])).map
      (fun pr => edgeDistOrZero graph pr.1 pr.2)).sum

/- The fields of an edge other than its pheromone. -/
def edgeFrame (e : Edge) : NodeId × NodeId × ℚ :=
  (e.source, e.target, e.distance)

/- The lookup key (source, target) of an edge. -/
def edgeKey (e : Edge) : NodeId × NodeId :=
  (e.source, e.target)

/- Concrete sample data for witnesses and counterexamples. -/

def sampleParams : ACOParameters :=
  { antCount := 1, alpha := 0, beta := 0, rho := 1/2, q := 4, iterations := 1 }

def fallbackEdgeLeft : Edge :=
  { source := "a", target := "b", distance := 1, pheromone := 1 }

def fallbackEdgeRight : Edge :=
  { source := "a", target := "c", distance := 1, pheromone := 1 }

def sampleGraph : Graph :=
  { nodes := [ { id := "a", x := 0, y := 0, label := none },
               { id := "b", x := 3, y := 4, label := none } ],
    edges := [ { source := "a", target := "b", distance := 1, pheromone := 1 },
               { source := "b", target := "a", distance := 1, pheromone := 1 } ] }

def sampleDoneAnt : Ant :=
  { id := "ant-0", currentNode := "a", visitedNodes := ["a", "b", "a"], tourLength := 2 }

def sampleMidAnt : Ant :=
  { id := "ant-0", currentNode := "a", visitedNodes := ["a"], tourLength := 0 }

def sampleDoneState : ACOState :=
  { graph := sampleGraph, ants := [sampleDoneAnt], bestTour := [],
    bestTourLength := ⊤, currentIteration := 0, running := false, speed := 500 }

def sampleMidState : ACOState :=
  { graph := sampleGraph, ants := [sampleMidAnt], bestTour := [],
    bestTourLength := ⊤, currentIteration := 0, running := false, speed := 500 }

/- ------------------------------------------------------------------ -/
/- C1: roulette-wheel fallback.                                        -/
/- ------------------------------------------------------------------ -/

/-- Claim C1 (counterexample): with two candidate edges (targets "b" and
"c") and a draw r = 2 the roulette walk exhausts the list without the
cumulative sum reaching the drawn value, yet `selectNextNode` returns the
FIRST candidate's target "b", not the last candidate's target "c" — the
claim that the fallback is the last candidate is false on the code
(models.ts line 160 returns availableEdges[0].target). -/
theorem selectNextNode_fallback_counterexample :
    rouletteWalkAux
        (([fallbackEdgeLeft, fallbackEdgeRight]).map
          (fun e => (e, desirability sampleParams e))) 0
        (2 * (([fallbackEdgeLeft, fallbackEdgeRight]).map
          (desirability sampleParams)).sum) = none
    ∧ ([fallbackEdgeLeft, fallbackEdgeRight].getLastD fallbackEdgeLeft).target = "c"
    ∧ selectNextNode [fallbackEdgeLeft, fallbackEdgeRight] sampleParams 2 = some "b"
    ∧ ("b" : NodeId) ≠ "c" := by
  refine ⟨?_, by decide, ?_, by decide⟩
  · norm_num [rouletteWalkAux, desirability, fallbackEdgeLeft, fallbackEdgeRight,
      sampleParams]
  · norm_num [selectNextNode, rouletteWalkAux, desirability, fallbackEdgeLeft,
      fallbackEdgeRight, sampleParams]

/-- Claim C1 (amended): when the roulette-wheel walk exhausts the whole
candidate list without the cumulative sum reaching the drawn value
r * total, `selectNextNode` returns the FIRST candidate in the list as
the deterministic fallback. -/
theorem selectNextNode_fallback_first (e0 : Edge) (rest : List Edge)
    (params : ACOParameters) (r : ℚ)
    (h : rouletteWalkAux ((e0 :: rest).map (fun e => (e, desirability params e))) 0
          (r * ((e0 :: rest).map (desirability params)).sum) = none) :
    selectNextNode (e0 :: rest) params r = some e0.target := by
  simp only [selectNextNode]
  rw [h]

/-- Claim C1 witness: the amended fallback theorem applied to the concrete
two-candidate list of the counterexample. -/
theorem selectNextNode_fallback_first_witness :
    rouletteWalkAux
        ((fallbackEdgeLeft :: [fallbackEdgeRight]).map
          (fun e => (e, desirability sampleParams e))) 0
        (2 * ((fallbackEdgeLeft :: [fallbackEdgeRight]).map
          (desirability sampleParams)).sum) = none
    ∧ selectNextNode (fallbackEdgeLeft :: [fallbackEdgeRight]) sampleParams 2 =
        some fallbackEdgeLeft.target :=
  ⟨by norm_num [rouletteWalkAux, desirability, fallbackEdgeLeft, fallbackEdgeRight,
      sampleParams],
   selectNextNode_fallback_first fallbackEdgeLeft [fallbackEdgeRight] sampleParams 2
     (by norm_num [rouletteWalkAux, desirability, fallbackEdgeLeft, fallbackEdgeRight,
        sampleParams])⟩

/- ------------------------------------------------------------------ -/
/- C6: calculateTourLength.                                            -/
/- ------------------------------------------------------------------ -/

lemma zip_closing_sum (graph : Graph) :
    ∀ (l : List NodeId) (a c d : NodeId),
      (((a :: l).zip (l ++ [c])).map (fun pr => edgeDistOrZero graph pr.1 pr.2)).sum =
        ((consecPairs (a :: l)).map (fun pr => edgeDistOrZero graph pr.1 pr.2)).sum +
          edgeDistOrZero graph ((a :: l).getLastD d) c := by
  intro l
  induction l with
  | nil => intro a c d; simp [consecPairs]
  | cons b l2 ih =>
    intro a c d
    simp only [List.cons_append, List.zip_cons_cons, List.map_cons, List.sum_cons,
      consecPairs, List.getLastD_cons]
    rw [ih b c a, List.getLastD_cons]
    ring

/-- Claim C6 (confirmed): `calculateTourLength` returns the sum of the
distances of the directed edges between consecutive tour entries plus the
closing edge from the last entry back to the first when tour.length > 1;
missing edges contribute 0 (via `edgeDistOrZero`) without raising an
error, and the empty tour yields 0.  Stated as agreement with the
spec-side model `tourLengthSpecModel`. -/
theorem calculateTourLength_spec (graph : Graph) (tour : List NodeId) :
    calculateTourLength graph tour = tourLengthSpecModel graph tour
    ∧ calculateTourLength graph [] = 0 := by
  constructor
  · match tour with
    | [] => rfl
    | [a] => rfl
    | t0 :: t1 :: rest =>
      have hspec : tourLengthSpecModel graph (t0 :: t1 :: rest) =
          (((t0 :: t1 :: rest).zip ((t1 :: rest) ++ [t0])).map
            (fun pr => edgeDistOrZero graph pr.1 pr.2)).sum := rfl
      have hcalc : calculateTourLength graph (t0 :: t1 :: rest) =
          ((consecPairs (t0 :: t1 :: rest)).map
            (fun pr => edgeDistOrZero graph pr.1 pr.2)).sum +
            edgeDistOrZero graph ((t0 :: t1 :: rest).getLastD "") t0 := by
        unfold calculateTourLength
        rw [if_pos (by simp)]
        rfl
      rw [hspec, hcalc, zip_closing_sum graph (t1 :: rest) t0 t0 ""]
  · rfl

/- ------------------------------------------------------------------ -/
/- Frame lemmas for the pheromone update.                              -/
/- ------------------------------------------------------------------ -/

lemma addPheromoneAt_map_frame (s t : NodeId) (d : ℚ) :
    ∀ es : List Edge, (addPheromoneAt es s t d).map edgeFrame = es.map edgeFrame := by
  intro es
  induction es with
  | nil => rfl
  | cons e rest ih =>
    by_cases h : e.source = s ∧ e.target = t
    · simp [addPheromoneAt, if_pos h, edgeFrame]
    · simp [addPheromoneAt, if_neg h, ih]

lemma addPheromoneAt_map_key (s t : NodeId) (d : ℚ) :
    ∀ es : List Edge, (addPheromoneAt es s t d).map edgeKey = es.map edgeKey := by
  intro es
  induction es with
  | nil => rfl
  | cons e rest ih =>
    by_cases h : e.source = s ∧ e.target = t
    · simp [addPheromoneAt, if_pos h, edgeKey]
    · simp [addPheromoneAt, if_neg h, ih]

lemma foldl_addPheromoneAt_map_frame (d : ℚ) :
    ∀ (pairs : List (NodeId × NodeId)) (es : List Edge),
      ((pairs.foldl (fun acc pr => addPheromoneAt acc pr.1 pr.2 d) es).map edgeFrame) =
        es.map edgeFrame := by
  intro pairs
  induction pairs with
  | nil => intro es; rfl
  | cons pr ps ih =>
    intro es
    rw [List.foldl_cons, ih, addPheromoneAt_map_frame]

lemma foldl_addPheromoneAt_map_key (d : ℚ) :
    ∀ (pairs : List (NodeId × NodeId)) (es : List Edge),
      ((pairs.foldl (fun acc pr => addPheromoneAt acc pr.1 pr.2 d) es).map edgeKey) =
        es.map edgeKey := by
  intro pairs
  induction pairs with
  | nil => intro es; rfl
  | cons pr ps ih =>
    intro es
    rw [List.foldl_cons, ih, addPheromoneAt_map_key]

lemma depositStep_map_frame (n : ℕ) (q : ℚ) (es : List Edge) (ant : Ant) :
    (depositStep n q es ant).map edgeFrame = es.map edgeFrame := by
  by_cases h : ant.visitedNodes.length ≤ n
  · simp [depositStep, if_pos h]
  · simp only [depositStep, if_neg h, depositAnt]
    exact foldl_addPheromoneAt_map_frame _ _ es

lemma depositStep_map_key (n : ℕ) (q : ℚ) (es : List Edge) (ant : Ant) :
    (depositStep n q es ant).map edgeKey = es.map edgeKey := by
  by_cases h : ant.visitedNodes.length ≤ n
  · simp [depositStep, if_pos h]
  · simp only [depositStep, if_neg h, depositAnt]
    exact foldl_addPheromoneAt_map_key _ _ es

lemma foldl_depositStep_map_frame (n : ℕ) (q : ℚ) :
    ∀ (ants : List Ant) (es : List Edge),
      ((ants.foldl (depositStep n q) es).map edgeFrame) = es.map edgeFrame := by
  intro ants
  induction ants with
  | nil => intro es; rfl
  | cons a rest ih =>
    intro es
    rw [List.foldl_cons, ih, depositStep_map_frame]

/-- Claim C10 (confirmed): the edge list returned by `updatePheromones` has
the same length and order as the input graph's edge list, and every
returned edge keeps the source, target and distance of the corresponding
input edge — only the pheromone field ever differs.  Stated as equality of
the `edgeFrame` (source, target, distance) projections, which forces equal
length, equal order and equal frames at every index. -/
theorem updatePheromones_frame (state : ACOState) (params : ACOParameters) :
    (updatePheromones state params).map edgeFrame = state.graph.edges.map edgeFrame := by
  unfold updatePheromones
  rw [foldl_depositStep_map_frame, List.map_map]
  have h : edgeFrame ∘ (fun e => { e with pheromone := e.pheromone * (1 - params.rho) }) =
      edgeFrame := funext fun e => rfl
  rw [h]

/- ------------------------------------------------------------------ -/
/- C4: evaporation-only update.                                        -/
/- ------------------------------------------------------------------ -/

lemma foldl_depositStep_skip (n : ℕ) (q : ℚ) :
    ∀ (ants : List Ant) (es : List Edge),
      (∀ ant ∈ ants, ant.visitedNodes.length ≤ n) →
      ants.foldl (depositStep n q) es = es := by
  intro ants
  induction ants with
  | nil => intro es _; rfl
  | cons a rest ih =>
    intro es h
    rw [List.foldl_cons, depositStep, if_pos (h a (by simp))]
    exact ih es (fun ant hm => h ant (by simp [hm]))

lemma sum_map_pheromone_mul (c : ℚ) :
    ∀ l : List Edge,
      ((l.map (fun e => e.pheromone * c)).sum) = (l.map Edge.pheromone).sum * c := by
  intro l
  induction l with
  | nil => simp
  | cons e rest ih => simp [ih, add_mul]

/-- Claim C4 (confirmed): when no ant is completed (every ant's
visitedNodes length is at most the node count), `updatePheromones` scales
every edge's pheromone by exactly (1 - rho) — it equals the pointwise
evaporation map — and therefore the sum of pheromone over all edges after
the update equals the sum before times (1 - rho). -/
theorem updatePheromones_evaporation_only (state : ACOState) (params : ACOParameters)
    (h : ∀ ant ∈ state.ants, ant.visitedNodes.length ≤ state.graph.nodes.length) :
    updatePheromones state params =
      state.graph.edges.map (fun e => { e with pheromone := e.pheromone * (1 - params.rho) })
    ∧ ((updatePheromones state params).map Edge.pheromone).sum =
        ((state.graph.edges.map Edge.pheromone).sum) * (1 - params.rho) := by
  have h1 : updatePheromones state params =
      state.graph.edges.map (fun e => { e with pheromone := e.pheromone * (1 - params.rho) }) := by
    unfold updatePheromones
    exact foldl_depositStep_skip _ _ _ _ h
  refine ⟨h1, ?_⟩
  rw [h1, List.map_map]
  have h2 : Edge.pheromone ∘ (fun e : Edge => { e with pheromone := e.pheromone * (1 - params.rho) }) =
      fun e : Edge => e.pheromone * (1 - params.rho) := funext fun e => rfl
  rw [h2]
  exact sum_map_pheromone_mul _ _

/-- Claim C4 witness: the evaporation-only theorem applied to a concrete
state whose single ant is mid-construction. -/
theorem updatePheromones_evaporation_only_witness :
    (∀ ant ∈ sampleMidState.ants,
      ant.visitedNodes.length ≤ sampleMidState.graph.nodes.length)
    ∧ (updatePheromones sampleMidState sampleParams =
        sampleMidState.graph.edges.map
          (fun e => { e with pheromone := e.pheromone * (1 - sampleParams.rho) })
      ∧ ((updatePheromones sampleMidState sampleParams).map Edge.pheromone).sum =
          ((sampleMidState.graph.edges.map Edge.pheromone).sum) * (1 - sampleParams.rho)) :=
  ⟨by decide, updatePheromones_evaporation_only sampleMidState sampleParams (by decide)⟩

/- ------------------------------------------------------------------ -/
/- C2: pheromone deposits.                                             -/
/- ------------------------------------------------------------------ -/

lemma addPheromoneAt_get? :
    ∀ (es : List Edge) (s t : NodeId) (d : ℚ) (idx : ℕ) (e : Edge),
      (es.map edgeKey).Nodup → es.get? idx = some e →
      (addPheromoneAt es s t d).get? idx =
        some (if e.source = s ∧ e.target = t
              then { e with pheromone := e.pheromone + d } else e) := by
  intro es s t d
  induction es with
  | nil => intro idx e _ hget; simp at hget
  | cons f rest ih =>
    intro idx e hnodup hget
    rw [List.map_cons, List.nodup_cons] at hnodup
    by_cases hf : f.source = s ∧ f.target = t
    · simp only [addPheromoneAt, if_pos hf]
      cases idx with
      | zero =>
        simp only [List.get?] at hget
        obtain rfl : f = e := Option.some.inj hget
        simp only [List.get?, if_pos hf]
      | succ j =>
        simp only [List.get?] at hget ⊢
        rw [hget]
        have hmem : e ∈ rest := List.get?_mem hget
        have hne : ¬ (e.source = s ∧ e.target = t) := by
          intro hc
          apply hnodup.1
          have : edgeKey e = edgeKey f := by
            simp [edgeKey, hc.1, hc.2, hf.1, hf.2]
          rw [← this]
          exact List.mem_map_of_mem edgeKey hmem
        rw [if_neg hne]
    · simp only [addPheromoneAt, if_neg hf]
      cases idx with
      | zero =>
        simp only [List.get?] at hget ⊢
        obtain rfl : f = e := Option.some.inj hget
        rw [if_neg hf]
      | succ j =>
        simp only [List.get?] at hget ⊢
        exact ih j e hnodup.2 hget

lemma foldl_addPheromoneAt_get? (d : ℚ) :
    ∀ (pairs : List (NodeId × NodeId)) (es : List Edge) (idx : ℕ) (e : Edge),
      (es.map edgeKey).Nodup → es.get? idx = some e →
      ∃ e2, (pairs.foldl (fun acc pr => addPheromoneAt acc pr.1 pr.2 d) es).get? idx = some e2
        ∧ e2.source = e.source ∧ e2.target = e.target ∧ e2.distance = e.distance
        ∧ e2.pheromone = e.pheromone + d * ((pairs.count (e.source, e.target) : ℕ) : ℚ) := by
  intro pairs
  induction pairs with
  | nil =>
    intro es idx e _ hget
    exact ⟨e, hget, rfl, rfl, rfl, by simp⟩
  | cons pr ps ih =>
    intro es idx e hnodup hget
    rw [List.foldl_cons]
    have hnodup2 : ((addPheromoneAt es pr.1 pr.2 d).map edgeKey).Nodup := by
      rw [addPheromoneAt_map_key]; exact hnodup
    have hget2 := addPheromoneAt_get? es pr.1 pr.2 d idx e hnodup hget
    by_cases hc : e.source = pr.1 ∧ e.target = pr.2
    · rw [if_pos hc] at hget2
      obtain ⟨e2, hg, hs, ht, hd, hp⟩ := ih _ idx _ hnodup2 hget2
      refine ⟨e2, hg, hs, ht, hd, ?_⟩
      have hpr : pr = (e.source, e.target) := by
        obtain ⟨p1, p2⟩ := pr
        simp only at hc
        simp [hc.1, hc.2]
      rw [hp, List.count_cons]
      simp only [hpr, beq_self_eq_true, if_true]
      push_cast
      ring
    · rw [if_neg hc] at hget2
      obtain ⟨e2, hg, hs, ht, hd, hp⟩ := ih _ idx _ hnodup2 hget2
      refine ⟨e2, hg, hs, ht, hd, ?_⟩
      have hpr : ¬ pr = (e.source, e.target) := by
        intro hq
        apply hc
        rw [hq]
        exact ⟨rfl, rfl⟩
      rw [hp, List.count_cons]
      simp [hpr]

lemma foldl_depositStep_get? (n : ℕ) (q : ℚ) :
    ∀ (ants : List Ant) (es : List Edge) (idx : ℕ) (e : Edge),
      (es.map edgeKey).Nodup → es.get? idx = some e →
      ∃ e2, (ants.foldl (depositStep n q) es).get? idx = some e2
        ∧ e2.source = e.source ∧ e2.target = e.target ∧ e2.distance = e.distance
        ∧ e2.pheromone = e.pheromone +
            ((ants.filter (fun ant => decide (n < ant.visitedNodes.length))).map
              (fun ant => (q / ant.tourLength) *
                (((consecPairs ant.visitedNodes).count (e.source, e.target) : ℕ) : ℚ))).sum := by
  intro ants
  induction ants with
  | nil =>
    intro es idx e _ hget
    exact ⟨e, hget, rfl, rfl, rfl, by simp⟩
  | cons a rest ih =>
    intro es idx e hnodup hget
    rw [List.foldl_cons]
    by_cases ha : a.visitedNodes.length ≤ n
    · simp only [depositStep, if_pos ha]
      obtain ⟨e2, hg, hs, ht, hd, hp⟩ := ih es idx e hnodup hget
      refine ⟨e2, hg, hs, ht, hd, ?_⟩
      rw [hp]
      have hfalse : (decide (n < a.visitedNodes.length)) = false := by
        simp [Nat.not_lt.mpr ha]
      rw [List.filter_cons, hfalse]
      simp
    · simp only [depositStep, if_neg ha, depositAnt]
      have hnodup2 : (((consecPairs a.visitedNodes).foldl
          (fun acc pr => addPheromoneAt acc pr.1 pr.2 (q / a.tourLength)) es).map edgeKey).Nodup := by
        rw [foldl_addPheromoneAt_map_key]; exact hnodup
      obtain ⟨e1, hg1, hs1, ht1, hd1, hp1⟩ :=
        foldl_addPheromoneAt_get? (q / a.tourLength) (consecPairs a.visitedNodes) es idx e
          hnodup hget
      obtain ⟨e2, hg2, hs2, ht2, hd2, hp2⟩ := ih _ idx e1 hnodup2 hg1
      refine ⟨e2, hg2, hs2.trans hs1, ht2.trans ht1, hd2.trans hd1, ?_⟩
      have htrue : (decide (n < a.visitedNodes.length)) = true := by
        simp [Nat.not_le.mp ha]
      rw [hp2, hs1, ht1, hp1, List.filter_cons, htrue]
      simp only [if_true, List.map_cons, List.sum_cons]
      ring

/-- Claim C2 (confirmed): under unique (source, target) keys, the pheromone
update gives each edge the evaporated value plus, for every completed ant
(visitedNodes length strictly exceeding the node count), deposit =
q / tourLength once per traversal of that edge by a consecutive pair of the
ant's visitedNodes — for a completed ant these pairs include the final
closing pair back to the start node, since its visitedNodes end with the
repeated start entry.  Ants that are not completed are filtered out and
contribute nothing, and deposits of several completed ants sharing an edge
accumulate additively in the sum. -/
theorem updatePheromones_deposit_spec (state : ACOState) (params : ACOParameters)
    (idx : ℕ) (e : Edge)
    (hnodup : (state.graph.edges.map edgeKey).Nodup)
    (hget : state.graph.edges.get? idx = some e) :
    ∃ e2, (updatePheromones state params).get? idx = some e2
      ∧ e2.source = e.source ∧ e2.target = e.target ∧ e2.distance = e.distance
      ∧ e2.pheromone = e.pheromone * (1 - params.rho) +
          ((state.ants.filter
              (fun ant => decide (state.graph.nodes.length < ant.visitedNodes.length))).map
            (fun ant => (params.q / ant.tourLength) *
              (((consecPairs ant.visitedNodes).count (e.source, e.target) : ℕ) : ℚ))).sum := by
  unfold updatePheromones
  have hget2 : (state.graph.edges.map
      (fun e => { e with pheromone := e.pheromone * (1 - params.rho) })).get? idx =
      some { e with pheromone := e.pheromone * (1 - params.rho) } := by
    rw [List.get?_map, hget]
    rfl
  have hkeys : ((state.graph.edges.map
      (fun e => { e with pheromone := e.pheromone * (1 - params.rho) })).map edgeKey) =
      state.graph.edges.map edgeKey := by
    rw [List.map_map]
    have h : edgeKey ∘ (fun e : Edge => { e with pheromone := e.pheromone * (1 - params.rho) }) =
        edgeKey := funext fun e => rfl
    rw [h]
  have hnodup2 : ((state.graph.edges.map
      (fun e => { e with pheromone := e.pheromone * (1 - params.rho) })).map edgeKey).Nodup := by
    rw [hkeys]; exact hnodup
  obtain ⟨e2, hg, hs, ht, hd, hp⟩ :=
    foldl_depositStep_get? state.graph.nodes.length params.q state.ants _ idx _ hnodup2 hget2
  exact ⟨e2, hg, hs, ht, hd, hp⟩

/-- Claim C2 witness: the deposit characterization applied at index 0 of a
concrete two-node graph whose single ant has completed the closed tour
a → b → a (deposit q / tourLength = 4 / 2 lands once on each edge). -/
theorem updatePheromones_deposit_spec_witness :
    (sampleDoneState.graph.edges.map edgeKey).Nodup
    ∧ sampleDoneState.graph.edges.get? 0 =
        some { source := "a", target := "b", distance := 1, pheromone := 1 }
    ∧ ∃ e2, (updatePheromones sampleDoneState sampleParams).get? 0 = some e2
        ∧ e2.source = "a" ∧ e2.target = "b" ∧ e2.distance = 1
        ∧ e2.pheromone = 1 * (1 - sampleParams.rho) +
            ((sampleDoneState.ants.filter
                (fun ant => decide (sampleDoneState.graph.nodes.length <
                  ant.visitedNodes.length))).map
              (fun ant => (sampleParams.q / ant.tourLength) *
                (((consecPairs ant.visitedNodes).count ("a", "b") : ℕ) : ℚ))).sum := by
  refine ⟨by decide, by decide, ?_⟩
  exact updatePheromones_deposit_spec sampleDoneState sampleParams 0
    { source := "a", target := "b", distance := 1, pheromone := 1 }
    (by decide) (by decide)

/- ------------------------------------------------------------------ -/
/- C5: generateRandomGraph.                                            -/
/- ------------------------------------------------------------------ -/

lemma generateRandomGraph_edges_def (sqrtFn : ℚ → ℚ) (rand : ℕ → ℚ) (n : ℕ)
    (w h : ℚ) :
    (generateRandomGraph sqrtFn rand n w h).edges =
      (List.range n).flatMap (fun i => (List.range n).flatMap (fun j =>
        if i = j then [] else [genEdge sqrtFn rand w h i j])) := rfl

lemma sum_indicator_of_le (i : ℕ) :
    ∀ n : ℕ, n ≤ i →
      (((List.range n).map (fun j => if i = j then 0 else 1)).sum) = n := by
  intro n
  induction n with
  | zero => intro _; rfl
  | succ m ih =>
    intro hmi
    rw [List.range_succ, List.map_append, List.sum_append, ih (by omega)]
    have hne : ¬ i = m := by omega
    simp [hne]

lemma sum_indicator_of_lt (i : ℕ) :
    ∀ n : ℕ, i < n →
      (((List.range n).map (fun j => if i = j then 0 else 1)).sum) = n - 1 := by
  intro n
  induction n with
  | zero => intro hi; omega
  | succ m ih =>
    intro hi
    rw [List.range_succ, List.map_append, List.sum_append]
    by_cases him : i = m
    · subst him
      rw [sum_indicator_of_le i i le_rfl]
      simp
    · have hlt : i < m := by omega
      rw [ih hlt]
      simp only [List.map_cons, List.map_nil, List.sum_cons, List.sum_nil, if_neg him]
      omega

lemma sum_map_const_length {α : Type} (c : ℕ) :
    ∀ l : List α, ((l.map (fun _ => c)).sum) = l.length * c := by
  intro l
  induction l with
  | nil => simp
  | cons a rest ih => simp [ih, Nat.succ_mul, Nat.add_comm]

lemma generateRandomGraph_length (sqrtFn : ℚ → ℚ) (rand : ℕ → ℚ) (n : ℕ)
    (w h : ℚ) :
    (generateRandomGraph sqrtFn rand n w h).edges.length = n * (n - 1) := by
  rw [generateRandomGraph_edges_def, List.length_flatMap]
  simp only [Function.comp_def]
  have h3 : (List.range n).map (fun i => ((List.range n).flatMap (fun j =>
      if i = j then ([] : List Edge) else [genEdge sqrtFn rand w h i j])).length) =
      (List.range n).map (fun _ => n - 1) := by
    apply List.map_congr_left
    intro i hi
    rw [List.length_flatMap]
    simp only [Function.comp_def]
    have h2 : (List.range n).map
        (fun j => (if i = j then ([] : List Edge) else [genEdge sqrtFn rand w h i j]).length) =
        (List.range n).map (fun j => if i = j then 0 else 1) := by
      apply List.map_congr_left
      intro j _
      by_cases hij : i = j <;> simp [hij]
    rw [h2, sum_indicator_of_lt i n (List.mem_range.mp hi)]
  rw [h3, sum_map_const_length, List.length_range]

lemma mem_ite_nil_singleton {c : Prop} [Decidable c] (x e : Edge) :
    e ∈ (if c then ([] : List Edge) else [x]) ↔ ¬ c ∧ e = x := by
  by_cases hc : c <;> simp [hc]

lemma mem_generateRandomGraph_edges (sqrtFn : ℚ → ℚ) (rand : ℕ → ℚ) (n : ℕ)
    (w h : ℚ) (e : Edge) :
    e ∈ (generateRandomGraph sqrtFn rand n w h).edges ↔
      ∃ i j, i < n ∧ j < n ∧ i ≠ j ∧ e = genEdge sqrtFn rand w h i j := by
  rw [generateRandomGraph_edges_def]
  simp only [List.mem_flatMap, List.mem_range, mem_ite_nil_singleton]
  constructor
  · rintro ⟨i, hi, j, hj, hij, he⟩
    exact ⟨i, j, hi, hj, hij, he⟩
  · rintro ⟨i, j, hi, hj, hij, he⟩
    exact ⟨i, hi, j, hj, hij, he⟩

/-- Claim C5 (confirmed): for every nodeCount = n ≥ 2 (the count and the
field characterizations in fact hold for every n), `generateRandomGraph`
returns a graph whose node list is the n generated nodes and whose edge
list has exactly n*(n-1) entries, one edge for each ordered pair of
distinct node indices (i, j), each edge carrying pheromone 1 and distance
equal to the Euclidean distance (via the injected square-root primitive)
between its source and target node positions. -/
theorem generateRandomGraph_spec (sqrtFn : ℚ → ℚ) (rand : ℕ → ℚ) (n : ℕ)
    (w h : ℚ) (hn : 2 ≤ n) :
    (generateRandomGraph sqrtFn rand n w h).edges.length = n * (n - 1)
    ∧ (∀ e ∈ (generateRandomGraph sqrtFn rand n w h).edges,
        e.pheromone = 1
        ∧ ∃ i j, i < n ∧ j < n ∧ i ≠ j
            ∧ e.source = (genNode rand w h i).id
            ∧ e.target = (genNode rand w h j).id
            ∧ e.distance = euclidean sqrtFn (genNode rand w h i) (genNode rand w h j))
    ∧ (∀ i j, i < n → j < n → i ≠ j →
        genEdge sqrtFn rand w h i j ∈ (generateRandomGraph sqrtFn rand n w h).edges)
    ∧ (generateRandomGraph sqrtFn rand n w h).nodes =
        (List.range n).map (genNode rand w h) := by
  refine ⟨generateRandomGraph_length sqrtFn rand n w h, ?_, ?_, rfl⟩
  · intro e he
    obtain ⟨i, j, hi, hj, hij, rfl⟩ := (mem_generateRandomGraph_edges _ _ _ _ _ _).mp he
    exact ⟨rfl, i, j, hi, hj, hij, rfl, rfl, rfl⟩
  · intro i j hi hj hij
    exact (mem_generateRandomGraph_edges _ _ _ _ _ _).mpr ⟨i, j, hi, hj, hij, rfl⟩

/-- Claim C5 witness: the generator specification applied at nodeCount = 2
with the identity square-root stand-in and the all-zero random stream. -/
theorem generateRandomGraph_spec_witness :
    2 ≤ 2
    ∧ ((generateRandomGraph id (fun _ => 0) 2 100 100).edges.length = 2 * (2 - 1)
      ∧ (∀ e ∈ (generateRandomGraph id (fun _ => 0) 2 100 100).edges,
          e.pheromone = 1
          ∧ ∃ i j, i < 2 ∧ j < 2 ∧ i ≠ j
              ∧ e.source = (genNode (fun _ => 0) 100 100 i).id
              ∧ e.target = (genNode (fun _ => 0) 100 100 j).id
              ∧ e.distance = euclidean id (genNode (fun _ => 0) 100 100 i)
                  (genNode (fun _ => 0) 100 100 j))
      ∧ (∀ i j, i < 2 → j < 2 → i ≠ j →
          genEdge id (fun _ => 0) 100 100 i j ∈
            (generateRandomGraph id (fun _ => 0) 2 100 100).edges)
      ∧ (generateRandomGraph id (fun _ => 0) 2 100 100).nodes =
          (List.range 2).map (genNode (fun _ => 0) 100 100)) :=
  ⟨by norm_num, generateRandomGraph_spec id (fun _ => 0) 2 100 100 (by norm_num)⟩

/- ------------------------------------------------------------------ -/
/- C7: stalled ants are left unchanged.                                -/
/- ------------------------------------------------------------------ -/

/- An ant with no available move: either it has visited every node but the
closing edge back to its start node is missing, or it is mid-construction
(visitedNodes length differs from the node count) with no edge leaving
currentNode toward an unvisited node. -/
def antStalled (graph : Graph) (ant : Ant) : Prop :=
  (ant.visitedNodes.length = graph.nodes.length
    ∧ findEdge graph.edges ant.currentNode (ant.visitedNodes.head?.getD "") = none)
  ∨ (ant.visitedNodes.length ≠ graph.nodes.length
    ∧ getAvailableEdges graph ant = [])

lemma moveAnt_stalled (graph : Graph) (params : ACOParameters) (rand : ℕ → ℚ)
    (ant : Ant) (k : ℕ) (h : antStalled graph ant) :
    moveAnt graph params rand ant k = (ant, k) := by
  rcases h with ⟨hlen, hedge⟩ | ⟨hlen, havail⟩
  · simp [moveAnt, if_pos hlen, hedge]
  · simp [moveAnt, if_neg hlen, havail]

lemma moveAntsAux_get? (graph : Graph) (params : ACOParameters) (rand : ℕ → ℚ) :
    ∀ (ants : List Ant) (k i : ℕ) (a : Ant), ants.get? i = some a →
      ∃ k2, ((moveAntsAux graph params rand ants k).1).get? i =
        some (moveAnt graph params rand a k2).1 := by
  intro ants
  induction ants with
  | nil => intro k i a hget; simp at hget
  | cons f rest ih =>
    intro k i a hget
    cases i with
    | zero =>
      simp only [List.get?] at hget
      obtain rfl : f = a := Option.some.inj hget
      exact ⟨k, rfl⟩
    | succ j =>
      simp only [List.get?] at hget
      obtain ⟨k2, hk2⟩ := ih (moveAnt graph params rand f k).2 j a hget
      exact ⟨k2, hk2⟩

/-- Claim C7 (confirmed): `moveAnts` returns any ant of the population
completely unchanged (same id, currentNode, visitedNodes, tourLength)
whenever no move is available for it — either it has visited every node
but the closing edge from currentNode to its start node does not exist in
the graph, or it is mid-construction and no edge leaves currentNode toward
an unvisited node; both are ordinary total-function outcomes, no error is
raised. -/
theorem moveAnts_stalled_unchanged (state : ACOState) (params : ACOParameters)
    (rand : ℕ → ℚ) (k i : ℕ) (ant : Ant)
    (hget : state.ants.get? i = some ant)
    (h : antStalled state.graph ant) :
    ((moveAnts state params rand k).1).get? i = some ant := by
  obtain ⟨k2, hk2⟩ := moveAntsAux_get? state.graph params rand state.ants k i ant hget
  rw [moveAnts, hk2, moveAnt_stalled state.graph params rand ant k2 h]

def stallGraph : Graph :=
  { nodes := [ { id := "a", x := 0, y := 0, label := none },
               { id := "b", x := 3, y := 4, label := none } ],
    edges := [ { source := "a", target := "b", distance := 1, pheromone := 1 } ] }

def stallAnt : Ant :=
  { id := "ant-0", currentNode := "b", visitedNodes := ["a", "b"], tourLength := 1 }

def stallState : ACOState :=
  { graph := stallGraph, ants := [stallAnt], bestTour := [],
    bestTourLength := ⊤, currentIteration := 0, running := false, speed := 500 }

/-- Claim C7 witness: an ant that has visited both nodes of a two-node
graph whose closing edge b → a is missing is returned unchanged. -/
theorem moveAnts_stalled_unchanged_witness :
    stallState.ants.get? 0 = some stallAnt
    ∧ antStalled stallState.graph stallAnt
    ∧ ((moveAnts stallState sampleParams (fun _ => 0) 0).1).get? 0 = some stallAnt :=
  ⟨by decide, Or.inl (by decide),
   moveAnts_stalled_unchanged stallState sampleParams (fun _ => 0) 0 0 stallAnt
     (by decide) (Or.inl (by decide))⟩

/- ------------------------------------------------------------------ -/
/- C8 and C3: performIteration.                                        -/
/- ------------------------------------------------------------------ -/

lemma performIteration_not_completed_eq (state : ACOState) (params : ACOParameters)
    (rand : ℕ → ℚ) (k : ℕ)
    (h : ((antsAfterMove state params rand k).1.all
        (fun ant => decide (state.graph.nodes.length < ant.visitedNodes.length))) = false) :
    performIteration state params rand k =
      ({ state with ants := (antsAfterMove state params rand k).1 },
        (antsAfterMove state params rand k).2) := by
  unfold performIteration
  rw [h]
  simp

lemma performIteration_completed_eq (state : ACOState) (params : ACOParameters)
    (rand : ℕ → ℚ) (k : ℕ)
    (h : ((antsAfterMove state params rand k).1.all
        (fun ant => decide (state.graph.nodes.length < ant.visitedNodes.length))) = true) :
    (performIteration state params rand k).1.bestTour =
        ((antsAfterMove state params rand k).1.foldl bestUpd
          (state.bestTour, state.bestTourLength)).1
    ∧ (performIteration state params rand k).1.bestTourLength =
        ((antsAfterMove state params rand k).1.foldl bestUpd
          (state.bestTour, state.bestTourLength)).2 := by
  unfold performIteration
  rw [h]
  exact ⟨rfl, rfl⟩

lemma bestUpd_pos (bt : List NodeId × WithTop ℚ) (a : Ant)
    (hlt : ((a.tourLength : ℚ) : WithTop ℚ) < bt.2) :
    bestUpd bt a = (a.visitedNodes, ((a.tourLength : ℚ) : WithTop ℚ)) := by
  simp [bestUpd, if_pos hlt]

lemma bestUpd_neg (bt : List NodeId × WithTop ℚ) (a : Ant)
    (hlt : ¬ ((a.tourLength : ℚ) : WithTop ℚ) < bt.2) :
    bestUpd bt a = bt := by
  simp [bestUpd, if_neg hlt]

/-- Claim C8 (confirmed): on a tick where, after the move step, not every
ant has visitedNodes length strictly exceeding the node count, the
returned state differs from the input state only in the ants field (set to
the moved population): the graph — hence all edges and pheromone values —
bestTour, bestTourLength, currentIteration (and the remaining running and
speed fields) are unchanged. -/
theorem performIteration_incomplete_frame (state : ACOState) (params : ACOParameters)
    (rand : ℕ → ℚ) (k : ℕ)
    (h : ((antsAfterMove state params rand k).1.all
        (fun ant => decide (state.graph.nodes.length < ant.visitedNodes.length))) = false) :
    (performIteration state params rand k).1.graph = state.graph
    ∧ (performIteration state params rand k).1.bestTour = state.bestTour
    ∧ (performIteration state params rand k).1.bestTourLength = state.bestTourLength
    ∧ (performIteration state params rand k).1.currentIteration = state.currentIteration
    ∧ (performIteration state params rand k).1.running = state.running
    ∧ (performIteration state params rand k).1.speed = state.speed
    ∧ (performIteration state params rand k).1.ants = (antsAfterMove state params rand k).1 := by
  rw [performIteration_not_completed_eq state params rand k h]
  exact ⟨rfl, rfl, rfl, rfl, rfl, rfl, rfl⟩

def isolatedState : ACOState :=
  { graph := { nodes := [ { id := "a", x := 0, y := 0, label := none },
                          { id := "b", x := 3, y := 4, label := none } ],
               edges := [] },
    ants := [sampleMidAnt], bestTour := [], bestTourLength := ⊤,
    currentIteration := 0, running := false, speed := 500 }

/-- Claim C8 witness: a tick on a two-node edge-less graph whose single ant
cannot complete leaves graph, best tour data and iteration counter
untouched. -/
theorem performIteration_incomplete_frame_witness :
    ((antsAfterMove isolatedState sampleParams (fun _ => 0) 0).1.all
        (fun ant => decide (isolatedState.graph.nodes.length < ant.visitedNodes.length))) = false
    ∧ ((performIteration isolatedState sampleParams (fun _ => 0) 0).1.graph = isolatedState.graph
      ∧ (performIteration isolatedState sampleParams (fun _ => 0) 0).1.bestTour = isolatedState.bestTour
      ∧ (performIteration isolatedState sampleParams (fun _ => 0) 0).1.bestTourLength = isolatedState.bestTourLength
      ∧ (performIteration isolatedState sampleParams (fun _ => 0) 0).1.currentIteration = isolatedState.currentIteration
      ∧ (performIteration isolatedState sampleParams (fun _ => 0) 0).1.running = isolatedState.running
      ∧ (performIteration isolatedState sampleParams (fun _ => 0) 0).1.speed = isolatedState.speed
      ∧ (performIteration isolatedState sampleParams (fun _ => 0) 0).1.ants =
          (antsAfterMove isolatedState sampleParams (fun _ => 0) 0).1) :=
  ⟨by decide, performIteration_incomplete_frame isolatedState sampleParams (fun _ => 0) 0 (by decide)⟩

lemma bestFold_le_and_mem :
    ∀ (ants : List Ant) (bt : List NodeId × WithTop ℚ),
      (ants.foldl bestUpd bt).2 ≤ bt.2
      ∧ (ants.foldl bestUpd bt = bt
        ∨ ∃ ant ∈ ants, ants.foldl bestUpd bt =
            (ant.visitedNodes, ((ant.tourLength : ℚ) : WithTop ℚ))
          ∧ ((ant.tourLength : ℚ) : WithTop ℚ) < bt.2) := by
  intro ants
  induction ants with
  | nil => intro bt; exact ⟨le_refl _, Or.inl rfl⟩
  | cons a rest ih =>
    intro bt
    rw [List.foldl_cons]
    by_cases hlt : ((a.tourLength : ℚ) : WithTop ℚ) < bt.2
    · rw [bestUpd_pos bt a hlt]
      obtain ⟨ihle, ihor⟩ := ih (a.visitedNodes, ((a.tourLength : ℚ) : WithTop ℚ))
      refine ⟨le_trans ihle (le_of_lt hlt), ?_⟩
      rcases ihor with heq | ⟨ant, hmem, heq, hlt2⟩
      · exact Or.inr ⟨a, by simp, heq, hlt⟩
      · exact Or.inr ⟨ant, by simp [hmem], heq, lt_trans hlt2 hlt⟩
    · rw [bestUpd_neg bt a hlt]
      obtain ⟨ihle, ihor⟩ := ih bt
      refine ⟨ihle, ?_⟩
      rcases ihor with heq | ⟨ant, hmem, heq, hlt2⟩
      · exact Or.inl heq
      · exact Or.inr ⟨ant, by simp [hmem], heq, hlt2⟩

/-- Claim C3 (confirmed): across a tick of `performIteration`,
bestTourLength never increases; on a tick where not every ant completed,
bestTour and bestTourLength are unchanged, and on a tick where every ant
completed they are either unchanged or replaced by the visitedNodes and
tourLength of a completed ant of the moved population whose tourLength is
strictly less than the previous best.  Applied along any lineage of
successive ticks this gives monotone non-increase of bestTourLength. -/
theorem performIteration_best_monotone (state : ACOState) (params : ACOParameters)
    (rand : ℕ → ℚ) (k : ℕ) :
    (performIteration state params rand k).1.bestTourLength ≤ state.bestTourLength
    ∧ (((antsAfterMove state params rand k).1.all
          (fun ant => decide (state.graph.nodes.length < ant.visitedNodes.length))) = false →
        (performIteration state params rand k).1.bestTour = state.bestTour
        ∧ (performIteration state params rand k).1.bestTourLength = state.bestTourLength)
    ∧ (((antsAfterMove state params rand k).1.all
          (fun ant => decide (state.graph.nodes.length < ant.visitedNodes.length))) = true →
        ((performIteration state params rand k).1.bestTour = state.bestTour
          ∧ (performIteration state params rand k).1.bestTourLength = state.bestTourLength)
        ∨ ∃ ant ∈ (antsAfterMove state params rand k).1,
            state.graph.nodes.length < ant.visitedNodes.length
            ∧ (performIteration state params rand k).1.bestTour = ant.visitedNodes
            ∧ (performIteration state params rand k).1.bestTourLength =
                ((ant.tourLength : ℚ) : WithTop ℚ)
            ∧ ((ant.tourLength : ℚ) : WithTop ℚ) < state.bestTourLength) := by
  cases hC : ((antsAfterMove state params rand k).1.all
      (fun ant => decide (state.graph.nodes.length < ant.visitedNodes.length))) with
  | false =>
    have hred := performIteration_not_completed_eq state params rand k hC
    rw [hred]
    exact ⟨le_refl _, fun _ => ⟨rfl, rfl⟩, fun hc => absurd hc (by simp)⟩
  | true =>
    obtain ⟨hbt, hbl⟩ := performIteration_completed_eq state params rand k hC
    obtain ⟨hle, hor⟩ := bestFold_le_and_mem (antsAfterMove state params rand k).1
      (state.bestTour, state.bestTourLength)
    refine ⟨?_, fun hc => absurd hc (by simp), fun _ => ?_⟩
    · rw [hbl]; exact hle
    · rcases hor with heq | ⟨ant, hmem, heq, hlt⟩
      · left
        exact ⟨by rw [hbt, heq], by rw [hbl, heq]⟩
      · right
        refine ⟨ant, hmem, ?_, ?_, ?_, hlt⟩
        · have hall := List.all_eq_true.mp hC ant hmem
          exact of_decide_eq_true hall
        · rw [hbt, heq]
        · rw [hbl, heq]

end ACO
